import Mathlib

/-!
Verification of the matching and scoring engine of
`neural_document_aligner/neural_document_aligner.py`.

The Python source is shallowly embedded: machine floats are idealised as
exact rationals (`ℚ`) or reals (`ℝ`, only where square roots are
inherent), Python lists become Lean `List`s, Python `dict`s used as
insertion-ordered maps become association lists, and code that can raise
an exception returns `Option`/`Except` (`none`/`.error` marking the
raise).  External collaborators (the `sentence_transformers` similarity
model, the levenshtein module) are parameters of the embedding, so every
theorem quantifies over them.
-/

namespace NDA

/-- Python slicing `l[a:b]` with step 1: negative bounds count from the
end, out-of-range bounds are clamped. -/
def pySlice {α : Type} (l : List α) (a b : ℤ) : List α :=
  let n : ℤ := l.length
  let a' : ℤ := if a < 0 then max 0 (n + a) else min a n
  let b' : ℤ := if b < 0 then max 0 (n + b) else min b n
  (l.take b'.toNat).drop a'.toNat

/-- Python `max` of a list of rationals; the code only calls it on
nonempty lists (`len(...) > 0` is checked first), `0` is a junk value for
the empty list. -/
def listMax : List ℚ → ℚ
  | [] => 0
  | a :: l => l.foldl max a

/-- First index of the maximal element, as `torch.argmax` over a
1-dimensional tensor (ties resolved to the first occurrence). -/
def argmaxIdx (l : List ℚ) : ℕ := l.indexOf (listMax l)

/-- Python `str.strip()`: drop whitespace from both ends. -/
def pyStrip (s : String) : String :=
  ⟨(((s.data.dropWhile Char.isWhitespace).reverse).dropWhile Char.isWhitespace).reverse⟩

/-- `len(line.strip()) == 0`: a line that is blank after trimming. -/
def pyBlank (s : String) : Bool := pyStrip s = ""

/-! ## `cosine_similarity`, lines 64-73

```python
def cosine_similarity(v1, v2, clipping=True):
    cosine_similarity = spatial.distance.cosine(v1, v2)
    cosine_distance = 1.0 - cosine_similarity
    if (clipping and cosine_distance < 0.0):
        cosine_distance = 0.0
        cosine_similarity = 1.0 - cosine_distance
    return cosine_similarity
```
Floats are idealised as exact reals.  `scipy.spatial.distance.cosine`
computes `1 - <u,v>/(|u| |v|)`; on a zero vector the quotient is `0/0`,
scipy's result is NaN — modelled as `none`. -/

/-- Euclidean dot product of two `n`-dimensional real vectors. -/
def dotp (n : ℕ) (a b : Fin n → ℝ) : ℝ := ∑ i, a i * b i

/-- Euclidean norm. -/
noncomputable def vnorm (n : ℕ) (a : Fin n → ℝ) : ℝ := Real.sqrt (dotp n a a)

/-- `scipy.spatial.distance.cosine`: the cosine distance in `[0, 2]`,
undefined (NaN, here `none`) when either vector has norm zero. -/
noncomputable def scipyCosine (n : ℕ) (a b : Fin n → ℝ) : Option ℝ :=
  if vnorm n a * vnorm n b = 0 then none
  else some (1 - dotp n a b / (vnorm n a * vnorm n b))

/-- `cosine_similarity` (lines 64-73). -/
noncomputable def cosine_similarity (n : ℕ) (a b : Fin n → ℝ) (clipping : Bool) :
    Option ℝ :=
  (scipyCosine n a b).map (fun cs =>
    let cosine_distance := 1 - cs
    if clipping ∧ cosine_distance < 0 then 1 - (0 : ℝ) else cs)

/-! ## Weighting, lines 81-254

A document is a list of text lines.  The Python code normalises every
line with `l.strip()[:constants.DEFAULT_MAX_SENTENCES_LENGTH]` and
groups lines by `hash` of the normalised text; the embedding takes the
normalisation as a parameter `pnorm` (the constant lives in the separate
`constants` module) and identifies `hash` with the normalised string
itself (exact text match).  `np.log` is likewise a parameter `pylog`,
since the claims under verification do not depend on its values. -/

/-- `get_weights_sl` (lines 81-125): weight of each occurrence of a
sentence is `(occurrence_count * sentence_length) / Σ(count * length)`;
if the sum is zero every weight is `1.0`. -/
def get_weights_sl (pnorm : String → String) (doc : List String) : List ℚ :=
  let nd := doc.map pnorm
  let lengths_sum : ℚ := (nd.map (fun l => (l.length : ℚ))).sum
  nd.map (fun l =>
    if lengths_sum = 0 then 1
    else ((nd.count l : ℚ) * (l.length : ℚ)) / lengths_sum)

/-- Document frequency: the number of documents whose normalised lines
contain the (normalised) sentence at least once (the `idx` table of
`get_weights_idf_all`, lines 184-206). -/
def dfCount (pnorm : String → String) (docs : List (List String)) (nl : String) : ℕ :=
  (docs.filter (fun d => nl ∈ d.map pnorm)).length

/-- `get_weights_idf_all` (lines 181-225): weight of every occurrence of
a sentence is `1 + log(nodocs / df)`. -/
def get_weights_idf_all (pylog : ℚ → ℚ) (pnorm : String → String)
    (docs : List (List String)) : List (List ℚ) :=
  docs.map (fun d =>
    (d.map pnorm).map (fun nl =>
      1 + pylog ((docs.length : ℚ) / (dfCount pnorm docs nl : ℚ))))

/-- `numpy` elementwise product of two 1-d float arrays: equal lengths
multiply pointwise, a length-1 array broadcasts, anything else raises a
broadcast `ValueError` (modelled as `none`). -/
def npMul1d (a b : List ℚ) : Option (List ℚ) :=
  if a.length = b.length then some (List.zipWith (· * ·) a b)
  else if a.length = 1 then some (b.map (fun x => a.headD 0 * x))
  else if b.length = 1 then some (a.map (fun x => x * b.headD 0))
  else none

/-- The loop `for idx in range(len(sl_weights)): results.append(sl_weights[idx] * idf_weights[idx])`
of `get_weights_slidf_all`: iterate over the first list; running out of
the second list first is an `IndexError` (`none`), and each
multiplication may itself raise (`npMul1d`). -/
def mulWeightLists : List (List ℚ) → List (List ℚ) → Option (List (List ℚ))
  | [], _ => some []
  | _ :: _, [] => none
  | a :: as, b :: bs => do
      let c ← npMul1d a b
      let rest ← mulWeightLists as bs
      pure (c :: rest)

/-- `get_weights_slidf_all` (lines 236-254): compute both weight lists,
log (but do not act on) length-mismatch warnings, then multiply the
per-document weight vectors pairwise. -/
def get_weights_slidf_all (pylog : ℚ → ℚ) (pnorm : String → String)
    (docs : List (List String)) : Option (List (List ℚ)) :=
  let idf_weights := get_weights_idf_all pylog pnorm docs
  let sl_weights := docs.map (get_weights_sl pnorm)
  mulWeightLists sl_weights idf_weights

/-! ## `filter` (heuristic pre-filter), lines 600-618

```python
def filter(src_embedding, trg_embedding, src_nolines=None, trg_nolines=None, percentage=0.3):
    ...
    if (nolines_src == 0 or nolines_trg == 0):
        return True
    if (nolines_src >= 10 or nolines_trg >= 10):
        percentage_src = nolines_src / (nolines_src + nolines_trg)
        percentage_trg = nolines_trg / (nolines_src + nolines_trg)
        if max(percentage_src, percentage_trg) - min(percentage_src, percentage_trg) >= percentage:
            return True
    return False
```
The embedding takes the two line counts directly (the Python default
path sets them to `len(src_embedding)` / `len(trg_embedding)`). -/
def filterHeuristic (nolines_src nolines_trg : ℕ) (percentage : ℚ) : Bool :=
  if nolines_src = 0 ∨ nolines_trg = 0 then
    true
  else if 10 ≤ nolines_src ∨ 10 ≤ nolines_trg then
    let percentage_src : ℚ := (nolines_src : ℚ) / ((nolines_src : ℚ) + (nolines_trg : ℚ))
    let percentage_trg : ℚ := (nolines_trg : ℚ) / ((nolines_src : ℚ) + (nolines_trg : ℚ))
    if percentage ≤ max percentage_src percentage_trg - min percentage_src percentage_trg then
      true
    else
      false
  else
    false

/-! ## `get_faiss` result selection, lines 740-780

```python
    for idx, i in enumerate(I):
        for idx2 in range(len(i)):
            ...
            result_faiss = D[idx][idx2]
            result_faiss = max(min(result_faiss, 1.0), 0.0)  # Clipping
            results.append([i[idx2], idx, result_faiss])
    results.sort(key=itemgetter(-1), reverse=True)
    final_results = []
    already_src = set(); already_trg = set()
    for r in results:
        if (r[1] in already_trg or r[0] in already_src):
            continue
        score = r[2]
        if (threshold is not None and score < threshold):
            continue
        final_results.append(...)
        already_src.add(r[0]); already_trg.add(r[1])
```
The pool of raw `(source index, target index, score)` triples collected
from the FAISS search is the input of the embedding. -/

/-- A `[src_index, trg_index, score]` entry of the `results` pool. -/
abbrev FTriple : Type := ℕ × ℕ × ℚ

/-- `max(min(x, 1.0), 0.0)`. -/
def clip01 (x : ℚ) : ℚ := max (min x 1) 0

/-- Pool collection: every raw triple gets its score clipped into `[0,1]`. -/
def faissPool (raw : List FTriple) : List FTriple :=
  raw.map (fun r => (r.1, r.2.1, clip01 r.2.2))

/-- `results.sort(key=itemgetter(-1), reverse=True)`: stable descending
sort by score. -/
def faissSortDesc (l : List FTriple) : List FTriple :=
  List.insertionSort (fun x y : FTriple => y.2.2 < x.2.2) l

/-- `threshold is not None and score < threshold`. -/
def belowThreshold (thr : Option ℚ) (s : ℚ) : Bool :=
  match thr with
  | none => false
  | some t => s < t

/-- The greedy walk over the sorted pool with the `already_src` /
`already_trg` sets. -/
def faissWalk (thr : Option ℚ) (aS aT : Finset ℕ) : List FTriple → List FTriple
  | [] => []
  | r :: rest =>
      if r.2.1 ∈ aT ∨ r.1 ∈ aS then faissWalk thr aS aT rest
      else if belowThreshold thr r.2.2 then faissWalk thr aS aT rest
      else r :: faissWalk thr (insert r.1 aS) (insert r.2.1 aT) rest

/-- `get_faiss` from pool collection to `final_results` (document lookup
by the selected indices elided: the emitted triples carry the indices). -/
def get_faiss_select (raw : List FTriple) (thr : Option ℚ) : List FTriple :=
  faissWalk thr ∅ ∅ (faissSortDesc (faissPool raw))

/-! ## `docalign` / `union_and_intersection`, lines 426-507

The two best-match dictionaries `result['src']` and `result['trg']`
(Python dicts, insertion-ordered) are modelled as association lists with
unique keys; documents are identified by natural numbers. -/

/-- A scored candidate `[src_doc, trg_doc, score]`. -/
abbrev Cand : Type := ℕ × ℕ × ℚ

/-- A best-match dictionary: key, best counterpart, best score. -/
abbrev BestMap : Type := List (ℕ × ℕ × ℚ)

/-- Dictionary lookup. -/
def bmLookup (m : BestMap) (k : ℕ) : Option (ℕ × ℚ) :=
  (m.find? (fun e => e.1 == k)).map (fun e => (e.2.1, e.2.2))

/-- In-place overwrite of the entry stored under an existing key. -/
def bmSet (m : BestMap) (k v : ℕ) (sc : ℚ) : BestMap :=
  m.map (fun e => if e.1 = k then (k, v, sc) else e)

/-- One `docalign` update: a fresh key is inserted, a stored entry is
replaced only by a strictly greater score (ties keep the first seen). -/
def bmUpdate (m : BestMap) (k v : ℕ) (sc : ℚ) : BestMap :=
  match bmLookup m k with
  | none => m ++ [(k, v, sc)]
  | some (_, old) => if old < sc then bmSet m k v sc else m

/-- The candidate-folding loop of `docalign` (lines 454-480), producing
the source-side and target-side best-match dictionaries. -/
def docalignFold (rs : List Cand) : BestMap × BestMap :=
  rs.foldl
    (fun (mm : BestMap × BestMap) r =>
      (bmUpdate mm.1 r.1 r.2.1 r.2.2, bmUpdate mm.2 r.2.1 r.1 r.2.2))
    ([], [])

/-- The union set of `union_and_intersection`: every source's best pair
plus every target's best pair. -/
def uiUnion (srcM trgM : BestMap) : Finset (ℕ × ℕ) :=
  (srcM.map (fun e => (e.1, e.2.1))).toFinset ∪
    (trgM.map (fun e => (e.2.1, e.1))).toFinset

/-- The intersection set: a source's best pair is kept when the target's
recorded best source is that source.  (In the Python code the inner
lookup `aligned_urls['trg'][trg_url]` can never raise `KeyError`, since
`docalign` records every candidate in both dictionaries.) -/
def uiInter (srcM trgM : BestMap) : Finset (ℕ × ℕ) :=
  ((srcM.filter
      (fun e => (bmLookup trgM e.2.1).map Prod.fst == some e.1)).map
    (fun e => (e.1, e.2.1))).toFinset

/-- `union_and_intersection` (lines 484-507). -/
def union_and_intersection (mm : BestMap × BestMap) :
    Finset (ℕ × ℕ) × Finset (ℕ × ℕ) :=
  (uiUnion mm.1 mm.2, uiInter mm.1 mm.2)

/-! ## `worker_distance` and the multiprocessing pairwise scorers,
lines 421-424, 782-862, 864-935

```python
def worker_distance(embedding_src, embedding_trg, return_value):
    cosine = cosine_similarity(avg_embedding_src_vector, avg_embedding_trg_vector)
    return (1.0 - cosine, return_value)
```
`avg_embedding_src_vector` / `avg_embedding_trg_vector` are neither
parameters nor module globals (they are locals of `average_similarity`),
so CPython raises `NameError` when the body executes.  The embedding
carries the module's global-name table and performs that resolution
explicitly; the pairwise similarity computation of the (unreachable)
happy path is a parameter `cos`. -/

/-- The names bound at the top level of `neural_document_aligner.py`:
its imports (lines 3-33) and its function definitions. -/
def moduleGlobals : List String :=
  ["os", "sys", "math", "copy", "base64", "logging", "argparse", "subprocess",
   "np", "spatial", "itemgetter", "Process", "Pool", "faiss", "utils",
   "embedding_utils", "gen_embeddings", "evaluate", "levenshtein",
   "FileFoundError", "constants", "time", "torch", "Path",
   "SentenceTransformer",
   "generate_embeddings", "get_embedding_vectors", "cosine_similarity",
   "median_embedding", "max_embedding", "get_weights_sl",
   "get_weights_sl_all", "get_weights_idf", "get_weights_idf_all",
   "get_weights_slidf", "get_weights_slidf_all", "weight_embeddings",
   "merge_embedding", "max_split3_embedding", "iterative_average_embedding",
   "average_embedding", "average_similarity", "levenshtein_norm_factor",
   "worker_lev", "worker_distance", "docalign", "union_and_intersection",
   "process_input_file", "filter", "apply_mask", "preprocess", "get_faiss",
   "get_lev", "get_distance",
   "docalign_strategy_applies_own_embedding_merging", "read_file_to_list",
   "get_max_avg", "write_list_to_file", "main", "check_args", "parse_args",
   "main_wrapper"]

/-- Python name resolution: a free name must be bound in the enclosing
scope, otherwise evaluation raises `NameError`. -/
def pyResolve (scope : List String) (n : String) : Except String Unit :=
  if n ∈ scope then Except.ok () else Except.error ("NameError: name " ++ n ++ " is not defined")

/-- `worker_distance` (lines 421-424): resolve the free names of the
body in (parameters ++ module globals) order of use, then produce the
would-be result.  The two `avg_embedding_*_vector` resolutions always
fail, so the final `pure` is unreachable. -/
def worker_distance (cos : List ℚ → List ℚ → ℚ)
    (embedding_src embedding_trg : List ℚ) (return_value : List ℕ) :
    Except String (ℚ × List ℕ) := do
  let scope := ["embedding_src", "embedding_trg", "return_value"] ++ moduleGlobals
  let _ ← pyResolve scope "cosine_similarity"
  let _ ← pyResolve scope "avg_embedding_src_vector"
  let _ ← pyResolve scope "avg_embedding_trg_vector"
  pure (1 - cos embedding_src embedding_trg, return_value)

/-- The row-major cross product of source and target indices with the
in-loop pair filter (`get_lev` lines 796-810, `get_distance` lines
877-890): target index inner, source index outer, a pair enqueued only
when `not apply_heuristics or not filter(...)`. -/
def crossPairs (S T : ℕ) (keep : ℕ → ℕ → Bool) : List (ℕ × ℕ) :=
  (List.range S).flatMap
    (fun si => ((List.range T).filter (fun ti => keep si ti)).map (fun ti => (si, ti)))

/-- `not apply_heuristics or not filter(src_embeddings[si], trg_embeddings[ti])`
with `filter`'s default 0.3 fraction. -/
def pairKeep (heur : Bool) (srcE trgE : List (List ℚ)) (si ti : ℕ) : Bool :=
  !heur || !(filterHeuristic (srcE.getD si []).length (trgE.getD ti []).length (3 / 10))

/-- The batch builder: the dispatch loop fills `processes_args` with
exactly `W` pending pairs (fewer only when the cross product runs out)
before each `pool.starmap` call. -/
def chunkExact {α : Type} (W : ℕ) : List α → List (List α)
  | [] => []
  | a :: l => (a :: l.take (W - 1)) :: chunkExact W (l.drop (W - 1))
  termination_by l => l.length
  decreasing_by simp only [List.length_drop, List.length_cons]; omega

/-- `pool.starmap(worker_distance, processes_args)` over one batch: the
first worker exception propagates (`Except` is short-circuiting). -/
def starmapDistance (cos : List ℚ → List ℚ → ℚ) (srcE trgE : List (List ℚ))
    (T : ℕ) (batch : List (ℕ × ℕ)) : Except String (List (ℚ × List ℕ)) :=
  batch.mapM (fun p =>
    worker_distance cos (srcE.getD p.1 []) (trgE.getD p.2 [])
      [p.1, p.2, p.1 * T + p.2])

/-- `sorted(results, key=lambda x: x[-1][-1])`: Python's stable sort by
a natural-number key (an insertion sort that inserts after equal keys is
observationally the same). -/
def sortByKey {α : Type} (key : α → ℕ) (l : List α) : List α :=
  List.insertionSort (fun a b => key a ≤ key b) l

/-- The per-batch result processing of `get_distance` (lines 905-917):
skip `None` results (impossible here: the worker result is a float) and
below-threshold scores, then append `[src_doc, trg_doc, distance]`
(documents stand for their indices). -/
def processDistanceResults (thr : Option ℚ) (rs : List (ℚ × List ℕ)) :
    List (ℕ × ℕ × ℚ) :=
  rs.filterMap (fun r =>
    if belowThreshold thr r.1 then none
    else some (r.2.getD 0 0, r.2.getD 1 0, r.1))

/-- The `noprocesses > 0` branch of `get_distance` (lines 869-919): fill
and dispatch batches until the cross product is exhausted, sort each
batch's results by flattened index, fold them into the cumulative list;
any worker exception aborts the whole call. -/
def get_distance_mp (cos : List ℚ → List ℚ → ℚ) (srcE trgE : List (List ℚ))
    (W : ℕ) (heur : Bool) (thr : Option ℚ) : Except String (List (ℕ × ℕ × ℚ)) :=
  let pairs := crossPairs srcE.length trgE.length (pairKeep heur srcE trgE)
  (chunkExact W pairs).foldlM
    (fun acc batch => do
      let results ← starmapDistance cos srcE trgE trgE.length batch
      pure (acc ++ processDistanceResults thr (sortByKey (fun r => r.2.getD 2 0) results)))
    []

/-! ## `get_lev` multiprocessing branch, lines 782-862

`worker_lev` delegates to the external `levenshtein` collaborator, a
parameter `score` here; its result for a pair may be `None`
(`r[0] is None` is checked), hence `Option ℚ`.  A worker result is
`(score, [src_idx, trg_idx, src_idx * len(trg_docs) + trg_idx])`. -/

/-- A collected `worker_lev` result. -/
abbrev LevItem : Type := Option ℚ × ℕ × ℕ × ℕ

/-- `x[-1][-1]`: the flattened pair index carried in the result. -/
def levSortKey (x : LevItem) : ℕ := x.2.2.2

/-- The results of one dispatched batch, in argument order. -/
def levItems (score : ℕ → ℕ → Option ℚ) (T : ℕ) (pairs : List (ℕ × ℕ)) :
    List LevItem :=
  pairs.map (fun p => (score p.1 p.2, p.1, p.2, p.1 * T + p.2))

/-- All dispatched batches, in dispatch order. -/
def levBatches (score : ℕ → ℕ → Option ℚ) (S T W : ℕ) (keep : ℕ → ℕ → Bool) :
    List (List LevItem) :=
  chunkExact W (levItems score T (crossPairs S T keep))

/-- The per-batch result processing of `get_lev` (lines 826-838): skip
`None` scores and below-threshold scores, then append
`[src_doc, trg_doc, similarity]` (documents stand for their indices). -/
def processLevResults (thr : Option ℚ) (rs : List LevItem) : List (ℕ × ℕ × ℚ) :=
  rs.filterMap (fun r =>
    match r.1 with
    | none => none
    | some sim =>
        if belowThreshold thr sim then none else some (r.2.1, r.2.2.1, sim))

/-- Fold the per-batch collected results into `results_levenshtein`:
each batch is re-sorted by the flattened pair index
(`sorted(results, key=lambda x: x[-1][-1])`, line 823) before its
surviving entries are appended. -/
def collectLev (thr : Option ℚ) (batchResults : List (List LevItem)) :
    List (ℕ × ℕ × ℚ) :=
  batchResults.foldl
    (fun acc b => acc ++ processLevResults thr (sortByKey levSortKey b)) []

/-- The `noprocesses > 0` branch of `get_lev` with workers returning in
argument order (the canonical run). -/
def get_lev_mp (score : ℕ → ℕ → Option ℚ) (S T W : ℕ) (keep : ℕ → ℕ → Bool)
    (thr : Option ℚ) : List (ℕ × ℕ × ℚ) :=
  collectLev thr (levBatches score S T W keep)

/-! ## `apply_mask`, lines 620-637

```python
def apply_mask(embeddings, mask, check_zeros_mask=False):
    for idx, embedding in enumerate(embeddings):
        if len(embedding.shape) == 1:
            axis = 0
            embeddings[idx] = embedding * mask
        elif len(embedding.shape) == 2:
            axis = 1
            for idx2, embedding2 in enumerate(embedding):
                embeddings[idx][idx2] = embedding2 * mask
        else:
            raise ...
        if check_zeros_mask:
            embeddings[idx] = np.delete(embedding, mask <= sys.float_info.epsilon, axis=axis)
    return embeddings
```
The aliasing is made explicit below: in the 1-d branch
`embeddings[idx] = embedding * mask` rebinds the list slot to a fresh
array while the loop variable `embedding` keeps referring to the
original array, whereas in the 2-d branch the rows of the very array
`embedding` refers to are mutated in place, so there the loop variable
sees the masked rows.  `np.delete(embedding, mask <= eps, axis)` is applied
to whatever the loop variable `embedding` denotes at that point. -/

/-- An embedding as `apply_mask` sees it: a single (already merged)
vector or a sentences-by-dimension matrix. -/
inductive Emb : Type
  | v1 : List ℚ → Emb
  | v2 : List (List ℚ) → Emb
deriving DecidableEq

/-- `sys.float_info.epsilon` = 2^-52. -/
def floatEps : ℚ := 1 / 2 ^ 52

/-- Elementwise product of two equally long vectors (`numpy` `*` on the
shapes this code feeds it). -/
def zipMul (a b : List ℚ) : List ℚ := List.zipWith (· * ·) a b

/-- `np.delete(v, mask <= eps, axis=0)` on a 1-d array: drop the
components at positions where the mask is at most machine epsilon. -/
def npDeleteVec (v mask : List ℚ) : List ℚ :=
  ((v.zip mask).filter (fun p => ¬ p.2 ≤ floatEps)).map Prod.fst

/-- `np.delete(m, mask <= eps, axis=1)` on a 2-d array: drop those
columns from every row. -/
def npDeleteCols (m : List (List ℚ)) (mask : List ℚ) : List (List ℚ) :=
  m.map (fun row => npDeleteVec row mask)

/-- One iteration of the `apply_mask` loop, with the slot/loop-variable
aliasing of the Python code spelled out. -/
def applyMaskStep (mask : List ℚ) (check_zeros_mask : Bool) (e : Emb) : Emb :=
  match e with
  | .v1 v =>
      -- `embeddings[idx] = embedding * mask` rebinds the slot only
      let slot := zipMul v mask
      let loopVar := v
      if check_zeros_mask then .v1 (npDeleteVec loopVar mask) else .v1 slot
  | .v2 rows =>
      -- `embeddings[idx][idx2] = embedding2 * mask` mutates the array in
      -- place, so the loop variable sees the masked rows
      let slot := rows.map (fun r => zipMul r mask)
      let loopVar := slot
      if check_zeros_mask then .v2 (npDeleteCols loopVar mask) else .v2 slot

/-- `apply_mask` over the whole embeddings list. -/
def apply_mask (embeddings : List Emb) (mask : List ℚ) (check_zeros_mask : Bool) :
    List Emb :=
  embeddings.map (applyMaskStep mask check_zeros_mask)

/-! ## Windowed rescoring, lines 979-1010 (`get_max_avg` inner loop) and
lines 1424-1496 (the `mix-faiss-lev-full` per-pair rescoring loop)

The `sentence_transformers` similarity model is a parameter
`sim : V → V → ℚ`; `modelsentence.similarity(A, B)` is the matrix whose
rows are indexed by `A` and columns by `B`. -/

/-- The `closeSentence` clamping
(`if c > hi: c = hi elif c < lo: c = lo`). -/
def clampClose (lo hi d : ℤ) : ℤ := if d > hi then hi else if d < lo then lo else d

/-- The column-window slice of row `i` (code lines 1453-1464 and
993-1003):

```python
left_bound = i
if i - closeSentence > 0:
    left_bound = i - closeSentence
if left_bound > len(similarities[i]) - closeSentence:
    left_bound = len(similarities[i]) - closeSentence
right_bound = i + closeSentence
if i + closeSentence > (len(similarities[i]) - 1):
    right_bound = len(similarities[i])
similarities[i][left_bound:right_bound]
```
(bounds may go negative and then follow Python slice semantics). -/
def rowWindow (close : ℤ) (i : ℕ) (row : List ℚ) : List ℚ :=
  let m : ℤ := row.length
  let lb0 : ℤ := if (i : ℤ) - close > 0 then (i : ℤ) - close else (i : ℤ)
  let lb : ℤ := if lb0 > m - close then m - close else lb0
  let rb : ℤ := if (i : ℤ) + close > m - 1 then m else (i : ℤ) + close
  pySlice row lb rb

/-- One iteration of the `mix-faiss-lev-full` rescoring loop (lines
1451-1479), accumulating `(sentence_count_analize, sum_max)`: skip a
blank source line, skip an empty window slice, skip when the globally
best-matching target line is blank, otherwise add the windowed maximum
and bump the count. -/
def mixStep (close : ℤ) (sims : List (List ℚ)) (sl tl : List String)
    (cs : ℕ × ℚ) (k : ℕ) : ℕ × ℚ :=
  let row := sims.getD k []
  let w := rowWindow close k row
  if pyBlank (sl.getD k "") then cs
  else if w.length > 0 then
    let maxtmp := listMax w
    let idxmax := argmaxIdx row
    if pyBlank (tl.getD idxmax "") then cs
    else (cs.1 + 1, cs.2 + maxtmp)
  else cs

/-- `for i in range(len(similarities)-1)` over `mixStep`. -/
def mixLoop (close : ℤ) (sims : List (List ℚ)) (sl tl : List String) : ℕ × ℚ :=
  (List.range (sims.length - 1)).foldl (mixStep close sims sl tl) (0, 0)

/-- `avg_sum_max = sum_max / sentence_count_analize` with no guard on
the divisor: a zero count is a `ZeroDivisionError` (`none`). -/
def mixFinish (cs : ℕ × ℚ) : Option ℚ :=
  if cs.1 = 0 then none else some (cs.2 / (cs.1 : ℚ))

/-- `closeSentence = abs(len(src) - len(trg))` clamped into `[50, 300]`
(lines 1424-1428). -/
def mixClose {V : Type} (srcEmb trgEmb : List V) : ℤ :=
  clampClose 50 300 |(srcEmb.length : ℤ) - (trgEmb.length : ℤ)|

/-- Lines 1433-1437: the longer sequence indexes the rows (the target
side on ties). -/
def mixSims {V : Type} (sim : V → V → ℚ) (srcEmb trgEmb : List V) :
    List (List ℚ) :=
  if srcEmb.length > trgEmb.length then srcEmb.map (fun a => trgEmb.map (sim a))
  else trgEmb.map (fun b => srcEmb.map (sim b))

/-- Lines 1440-1445: `source_lines` follows the row side. -/
def mixSourceLines {V : Type} (srcEmb trgEmb : List V)
    (srcLines trgLines : List String) : List String :=
  if srcEmb.length > trgEmb.length then srcLines else trgLines

/-- Lines 1440-1445: `target_lines` follows the column side. -/
def mixTargetLines {V : Type} (srcEmb trgEmb : List V)
    (srcLines trgLines : List String) : List String :=
  if srcEmb.length > trgEmb.length then trgLines else srcLines

/-- The whole per-pair windowed rescoring of the `mix-faiss-lev-full`
strategy (lines 1424-1496). -/
def mixPairScore {V : Type} (sim : V → V → ℚ) (srcEmb trgEmb : List V)
    (srcLines trgLines : List String) : Option ℚ :=
  mixFinish
    (mixLoop (mixClose srcEmb trgEmb) (mixSims sim srcEmb trgEmb)
      (mixSourceLines srcEmb trgEmb srcLines trgLines)
      (mixTargetLines srcEmb trgEmb srcLines trgLines))

/-- `closeSentence` clamped into `[50, 150]` in `get_max_avg`
(lines 984-988). -/
def gmaClose {V : Type} (srcEmb trgEmb : List V) : ℤ :=
  clampClose 50 150 |(srcEmb.length : ℤ) - (trgEmb.length : ℤ)|

/-- Lines 979-982: in `get_max_avg` the longer sequence indexes the rows
(the source side on ties). -/
def gmaSims {V : Type} (sim : V → V → ℚ) (srcEmb trgEmb : List V) :
    List (List ℚ) :=
  if srcEmb.length ≥ trgEmb.length then srcEmb.map (fun a => trgEmb.map (sim a))
  else trgEmb.map (fun b => srcEmb.map (sim b))

/-- One iteration of the `get_max_avg` inner loop (lines 993-1007): no
blank-line checks, only the nonempty-window check. -/
def gmaStep (close : ℤ) (sims : List (List ℚ)) (cs : ℕ × ℚ) (k : ℕ) : ℕ × ℚ :=
  let row := sims.getD k []
  let w := rowWindow close k row
  if w.length > 0 then (cs.1 + 1, cs.2 + listMax w) else cs

/-- `for k in range(len(similarities)-1)` over `gmaStep`. -/
def gmaLoop (close : ℤ) (sims : List (List ℚ)) : ℕ × ℚ :=
  (List.range (sims.length - 1)).foldl (gmaStep close sims) (0, 0)

/-- The per-pair score of `get_max_avg` (lines 975-1010). -/
def get_max_avg_pair {V : Type} (sim : V → V → ℚ) (srcEmb trgEmb : List V) :
    Option ℚ :=
  mixFinish (gmaLoop (gmaClose srcEmb trgEmb) (gmaSims sim srcEmb trgEmb))

/-- The row-contribution predicate of the `mix-faiss-lev-full` loop: a
visited row adds to the average iff its source line is not blank, its
window slice is nonempty, and the target line at the global best-match
column is not blank. -/
def mixContrib (close : ℤ) (sims : List (List ℚ)) (sl tl : List String)
    (k : ℕ) : Bool :=
  !pyBlank (sl.getD k "") &&
    (decide (0 < (rowWindow close k (sims.getD k [])).length) &&
      !pyBlank (tl.getD (argmaxIdx (sims.getD k [])) ""))

/-- The windowed maximum a contributing row adds. -/
def mixRowMax (close : ℤ) (sims : List (List ℚ)) (k : ℕ) : ℚ :=
  listMax (rowWindow close k (sims.getD k []))

/-- The row-contribution predicate of `get_max_avg`: only the
nonempty-window check. -/
def gmaContrib (close : ℤ) (sims : List (List ℚ)) (k : ℕ) : Bool :=
  decide (0 < (rowWindow close k (sims.getD k [])).length)

/-- The closed mean form of the `mix-faiss-lev-full` per-pair score: the
mean of the windowed maxima of the contributing rows among the visited
rows `0 .. R-2`. -/
def mixMeanForm {V : Type} (sim : V → V → ℚ) (srcEmb trgEmb : List V)
    (srcLines trgLines : List String) : Option ℚ :=
  let close := mixClose srcEmb trgEmb
  let sims := mixSims sim srcEmb trgEmb
  let sl := mixSourceLines srcEmb trgEmb srcLines trgLines
  let tl := mixTargetLines srcEmb trgEmb srcLines trgLines
  let ks := (List.range (sims.length - 1)).filter (mixContrib close sims sl tl)
  if ks.length = 0 then none
  else some ((ks.map (mixRowMax close sims)).sum / (ks.length : ℚ))

/-- The closed mean form of the `get_max_avg` per-pair score. -/
def gmaMeanForm {V : Type} (sim : V → V → ℚ) (srcEmb trgEmb : List V) :
    Option ℚ :=
  let close := gmaClose srcEmb trgEmb
  let sims := gmaSims sim srcEmb trgEmb
  let ks := (List.range (sims.length - 1)).filter (gmaContrib close sims)
  if ks.length = 0 then none
  else some ((ks.map (mixRowMax close sims)).sum / (ks.length : ℚ))

/-- **Spec-worded comparison definition** (used only to settle the
windowed-aligner claim): the scorer as the specification describes it —
rows indexed by the *shorter* sequence, *every* position of that axis
visited, and the column window `[i-w, i+w]` clipped to the valid index
range. -/
def windowClaim (w : ℤ) (i : ℕ) (row : List ℚ) : List ℚ :=
  pySlice row (max 0 ((i : ℤ) - w)) (min (row.length : ℤ) ((i : ℤ) + w + 1))

/-- One row of the spec-worded scorer, with the same skip rules the
specification lists (blank source line, blank best-matching target
line). -/
def claimStep (w : ℤ) (sims : List (List ℚ)) (sl tl : List String)
    (cs : ℕ × ℚ) (i : ℕ) : ℕ × ℚ :=
  let row := sims.getD i []
  let win := windowClaim w i row
  if pyBlank (sl.getD i "") then cs
  else if win.length > 0 then
    if pyBlank (tl.getD (argmaxIdx row) "") then cs
    else (cs.1 + 1, cs.2 + listMax win)
  else cs

/-- The spec-worded document-pair score: every position `i` of the
shorter axis is visited and the result is the arithmetic mean of the
windowed maxima over the non-skipped rows. -/
def windowedScoreClaim {V : Type} (sim : V → V → ℚ) (srcEmb trgEmb : List V)
    (srcLines trgLines : List String) : Option ℚ :=
  let w := clampClose 50 300 |(srcEmb.length : ℤ) - (trgEmb.length : ℤ)|
  let sims :=
    if srcEmb.length ≤ trgEmb.length then srcEmb.map (fun a => trgEmb.map (sim a))
    else trgEmb.map (fun b => srcEmb.map (sim b))
  let sl := if srcEmb.length ≤ trgEmb.length then srcLines else trgLines
  let tl := if srcEmb.length ≤ trgEmb.length then trgLines else srcLines
  let cs := (List.range sims.length).foldl (claimStep w sims sl tl) (0, 0)
  if cs.1 = 0 then none else some (cs.2 / (cs.1 : ℚ))

/-- A concrete similarity model (plain product of one-dimensional
embeddings) used by the closed counterexamples and witnesses. -/
def mulSim (a b : ℚ) : ℚ := a * b

end NDA

/-! # Theorems -/

namespace NDA

lemma foldl_count_sum (f : ℕ → Bool) (g : ℕ → ℚ) :
    ∀ (l : List ℕ) (c : ℕ) (s : ℚ),
      l.foldl (fun cs k => if f k then (cs.1 + 1, cs.2 + g k) else cs) (c, s)
        = (c + (l.filter f).length, s + ((l.filter f).map g).sum) := by
  intro l
  induction l with
  | nil => intro c s; simp
  | cons a l ih =>
      intro c s
      rw [List.foldl_cons]
      by_cases h : f a
      · rw [if_pos h, ih, List.filter_cons, if_pos h]
        simp only [List.length_cons, List.map_cons, List.sum_cons, Prod.mk.injEq]
        constructor
        · omega
        · ring
      · rw [if_neg h, ih, List.filter_cons,
          if_neg (by simpa using h)]

lemma mixStep_eq (close : ℤ) (sims : List (List ℚ)) (sl tl : List String) :
    mixStep close sims sl tl = fun cs k =>
      if mixContrib close sims sl tl k then
        (cs.1 + 1, cs.2 + mixRowMax close sims k)
      else cs := by
  funext cs k
  unfold mixStep mixContrib mixRowMax
  by_cases h1 : pyBlank (sl.getD k "") = true
  · rw [if_pos h1, if_neg (by rw [h1]; simp)]
  · have h1f : pyBlank (sl.getD k "") = false := Bool.eq_false_iff.mpr h1
    rw [if_neg h1]
    by_cases h2 : 0 < (rowWindow close k (sims.getD k [])).length
    · rw [if_pos h2]
      by_cases h3 : pyBlank (tl.getD (argmaxIdx (sims.getD k [])) "") = true
      · rw [if_pos h3, if_neg (by rw [h1f, h3]; simp)]
      · have h3f : pyBlank (tl.getD (argmaxIdx (sims.getD k [])) "") = false :=
          Bool.eq_false_iff.mpr h3
        rw [if_neg h3, if_pos (by rw [h1f, h3f, decide_eq_true h2]; simp)]
    · rw [if_neg h2, if_neg (by rw [h1f, decide_eq_false h2]; simp)]

lemma gmaStep_eq (close : ℤ) (sims : List (List ℚ)) :
    gmaStep close sims = fun cs k =>
      if gmaContrib close sims k then
        (cs.1 + 1, cs.2 + mixRowMax close sims k)
      else cs := by
  funext cs k
  unfold gmaStep gmaContrib mixRowMax
  by_cases h2 : 0 < (rowWindow close k (sims.getD k [])).length
  · rw [if_pos h2, if_pos (by rw [decide_eq_true h2])]
  · rw [if_neg h2, if_neg (by rw [decide_eq_false h2]; simp)]

lemma mixLoop_char (close : ℤ) (sims : List (List ℚ)) (sl tl : List String) :
    mixLoop close sims sl tl
      = (((List.range (sims.length - 1)).filter (mixContrib close sims sl tl)).length,
          (((List.range (sims.length - 1)).filter
              (mixContrib close sims sl tl)).map (mixRowMax close sims)).sum) := by
  unfold mixLoop
  rw [mixStep_eq]
  simpa using
    foldl_count_sum (mixContrib close sims sl tl) (mixRowMax close sims)
      (List.range (sims.length - 1)) 0 0

lemma gmaLoop_char (close : ℤ) (sims : List (List ℚ)) :
    gmaLoop close sims
      = (((List.range (sims.length - 1)).filter (gmaContrib close sims)).length,
          (((List.range (sims.length - 1)).filter
              (gmaContrib close sims)).map (mixRowMax close sims)).sum) := by
  unfold gmaLoop
  rw [gmaStep_eq]
  simpa using
    foldl_count_sum (gmaContrib close sims) (mixRowMax close sims)
      (List.range (sims.length - 1)) 0 0

/-- **C1 counterexample** — the claim's description of the windowed
scorer (every position of the shorter axis visited, window
`[i-w, i+w]` clipped to valid bounds) disagrees with the code on the
concrete pair with embeddings `[2, 0]` / `[1, 1]` and non-blank lines:
the loop `for i in range(len(similarities)-1)` unconditionally omits the
last row, and the rows follow the longer sequence, so the code returns
`2` where the spec-worded scorer returns `1`. -/
theorem windowed_score_claim_counterexample :
    mixPairScore mulSim [2, 0] [1, 1] ["x", "x"] ["x", "x"]
      ≠ windowedScoreClaim mulSim [2, 0] [1, 1] ["x", "x"] ["x", "x"] := by
  have hs : mixSims mulSim [(2 : ℚ), 0] [(1 : ℚ), 1] = [[2, 0], [2, 0]] := by
    norm_num [mixSims, mulSim]
  have hc : mixClose [(2 : ℚ), 0] [(1 : ℚ), 1] = 50 := by decide
  have hsl : mixSourceLines [(2 : ℚ), 0] [(1 : ℚ), 1] ["x", "x"] ["x", "x"]
      = ["x", "x"] := by decide
  have htl : mixTargetLines [(2 : ℚ), 0] [(1 : ℚ), 1] ["x", "x"] ["x", "x"]
      = ["x", "x"] := by decide
  have hwin : rowWindow 50 0 [(2 : ℚ), 0] = [2, 0] := by decide
  have hblank : pyBlank "x" = false := by decide
  have hargmax : argmaxIdx [(2 : ℚ), 0] = 0 := by decide
  have hmaxa : listMax [(2 : ℚ), 0] = 2 := by decide
  have hloop : mixLoop 50 [[(2 : ℚ), 0], [2, 0]] ["x", "x"] ["x", "x"] = (1, 2) := by
    norm_num [mixLoop, mixStep, List.range_succ, hwin, hblank, hargmax, hmaxa]
  have h1 : mixPairScore mulSim [(2 : ℚ), 0] [(1 : ℚ), 1] ["x", "x"] ["x", "x"]
      = some 2 := by
    unfold mixPairScore
    rw [hc, hs, hsl, htl, hloop]
    norm_num [mixFinish]
  have hcc : clampClose 50 300 0 = 50 := by decide
  have hwin0 : windowClaim 50 0 [(2 : ℚ), 2] = [2, 2] := by decide
  have hwin1 : windowClaim 50 1 [(0 : ℚ), 0] = [0, 0] := by decide
  have hargmax0 : argmaxIdx [(2 : ℚ), 2] = 0 := by decide
  have hargmax1 : argmaxIdx [(0 : ℚ), 0] = 0 := by decide
  have hmax0 : listMax [(2 : ℚ), 2] = 2 := by decide
  have hmax1 : listMax [(0 : ℚ), 0] = 0 := by decide
  have h2 : windowedScoreClaim mulSim [(2 : ℚ), 0] [(1 : ℚ), 1] ["x", "x"] ["x", "x"]
      = some 1 := by
    unfold windowedScoreClaim
    norm_num [claimStep, mulSim, List.range_succ, hcc, hwin0, hwin1, hblank,
      hargmax0, hargmax1, hmax0, hmax1]
  rw [h1, h2]
  norm_num

/-- **C1 (amended)** — the windowed rescoring loop visits positions
`0 .. R-2` of the row axis of the similarity matrix, whose rows follow
the *longer* of the two sequences (target side on ties in the
`mix-faiss-lev-full` loop, source side on ties in `get_max_avg`); the
last row is unconditionally omitted.  A visited row is skipped when its
source-side line is blank, its window slice is empty, or the line at its
global best-matching column is blank; each remaining row contributes the
maximum over the code's window (lower bound `i-w` only when `i-w > 0`,
else `i`, further clamped down to `m-w` when it exceeds `m-w`, upper
bound `i+w` capped to `m`), and the returned document score is the
arithmetic mean of those windowed maxima over the count of contributing
rows, with `w = clamp(|n-m|, 50, 300)` (`clamp(|n-m|, 50, 150)` in
`get_max_avg`, which also has no blank-line skips). -/
theorem windowed_score_mean_form :
    (∀ (V : Type) (sim : V → V → ℚ) (srcEmb trgEmb : List V)
        (srcLines trgLines : List String),
      mixPairScore sim srcEmb trgEmb srcLines trgLines
        = mixMeanForm sim srcEmb trgEmb srcLines trgLines) ∧
    (∀ (V : Type) (sim : V → V → ℚ) (srcEmb trgEmb : List V),
      get_max_avg_pair sim srcEmb trgEmb = gmaMeanForm sim srcEmb trgEmb) := by
  constructor
  · intro V sim srcEmb trgEmb srcLines trgLines
    unfold mixPairScore mixMeanForm
    rw [mixLoop_char]
    rfl
  · intro V sim srcEmb trgEmb
    unfold get_max_avg_pair gmaMeanForm
    rw [gmaLoop_char]
    rfl

/-- **C10** — the windowed score divides `sum_max` by
`sentence_count_analize` with no guard: whenever every visited row of a
pair is skipped (blank source line, blank best-matching target line, or
empty window slice), the count stays `0` and the computation raises
`ZeroDivisionError` (`none`) instead of returning a score; likewise in
`get_max_avg` when no visited row has a nonempty window (in particular
when the matrix has at most one row). -/
theorem windowed_score_division_by_zero :
    (∀ (V : Type) (sim : V → V → ℚ) (srcEmb trgEmb : List V)
        (srcLines trgLines : List String),
      (∀ k, k < (mixSims sim srcEmb trgEmb).length - 1 →
          mixContrib (mixClose srcEmb trgEmb) (mixSims sim srcEmb trgEmb)
            (mixSourceLines srcEmb trgEmb srcLines trgLines)
            (mixTargetLines srcEmb trgEmb srcLines trgLines) k = false) →
      mixLoop (mixClose srcEmb trgEmb) (mixSims sim srcEmb trgEmb)
          (mixSourceLines srcEmb trgEmb srcLines trgLines)
          (mixTargetLines srcEmb trgEmb srcLines trgLines) = (0, 0) ∧
        mixPairScore sim srcEmb trgEmb srcLines trgLines = none) ∧
    (∀ (V : Type) (sim : V → V → ℚ) (srcEmb trgEmb : List V),
      (∀ k, k < (gmaSims sim srcEmb trgEmb).length - 1 →
          gmaContrib (gmaClose srcEmb trgEmb) (gmaSims sim srcEmb trgEmb) k
            = false) →
      get_max_avg_pair sim srcEmb trgEmb = none) := by
  constructor
  · intro V sim srcEmb trgEmb srcLines trgLines hall
    have hfil : (List.range ((mixSims sim srcEmb trgEmb).length - 1)).filter
        (mixContrib (mixClose srcEmb trgEmb) (mixSims sim srcEmb trgEmb)
          (mixSourceLines srcEmb trgEmb srcLines trgLines)
          (mixTargetLines srcEmb trgEmb srcLines trgLines)) = [] := by
      apply List.filter_eq_nil_iff.mpr
      intro k hk
      simp [hall k (List.mem_range.mp hk)]
    have hzero : mixLoop (mixClose srcEmb trgEmb) (mixSims sim srcEmb trgEmb)
        (mixSourceLines srcEmb trgEmb srcLines trgLines)
        (mixTargetLines srcEmb trgEmb srcLines trgLines) = (0, 0) := by
      rw [mixLoop_char, hfil]
      rfl
    refine ⟨hzero, ?_⟩
    unfold mixPairScore
    rw [hzero]
    rfl
  · intro V sim srcEmb trgEmb hall
    have hfil : (List.range ((gmaSims sim srcEmb trgEmb).length - 1)).filter
        (gmaContrib (gmaClose srcEmb trgEmb) (gmaSims sim srcEmb trgEmb)) = [] := by
      apply List.filter_eq_nil_iff.mpr
      intro k hk
      simp [hall k (List.mem_range.mp hk)]
    unfold get_max_avg_pair
    rw [gmaLoop_char, hfil]
    rfl

/-- **C10 witness** — with both lines of the pair blank every visited
row is skipped and the `mix-faiss-lev-full` rescoring divides by zero;
`get_max_avg` on a pair whose matrix has a single row (one-sentence
documents) visits no row at all and also divides by zero. -/
theorem windowed_score_division_by_zero_witness :
    mixPairScore mulSim [1, 0] [1, 1] ["", ""] ["", ""] = none ∧
    get_max_avg_pair mulSim ([] : List ℚ) [1] = none := by
  constructor
  · refine (windowed_score_division_by_zero.1 ℚ mulSim [1, 0] [1, 1] ["", ""]
      ["", ""] ?_).2
    intro k hk
    have hlen : (mixSims mulSim [(1 : ℚ), 0] [(1 : ℚ), 1]).length = 2 := by decide
    rw [hlen] at hk
    have hk0 : k = 0 := by omega
    subst hk0
    decide
  · refine windowed_score_division_by_zero.2 ℚ mulSim ([] : List ℚ) [1] ?_
    intro k hk
    have hlen : (gmaSims mulSim ([] : List ℚ) [(1 : ℚ)]).length = 1 := by decide
    rw [hlen] at hk
    omega

/-- **C6** — heuristic pre-filter: a pair is skipped iff either document
is empty, or one of them has at least 10 sentences and the gap between
the two documents' shares of the combined sentence count reaches the
configured fraction; in particular a 3-vs-100 pair is skipped at the
default fraction 0.3, and a pair of nonempty documents that both have
fewer than 10 sentences is never skipped, whatever the fraction. -/
theorem filter_heuristic_characterisation :
    (∀ s t : ℕ, ∀ p : ℚ,
      filterHeuristic s t p = true ↔
        (s = 0 ∨ t = 0 ∨
          ((10 ≤ s ∨ 10 ≤ t) ∧
            p ≤ |((s : ℚ) / ((s : ℚ) + (t : ℚ)) - (t : ℚ) / ((s : ℚ) + (t : ℚ)))|))) ∧
    filterHeuristic 3 100 (3 / 10) = true ∧
    (∀ p : ℚ, filterHeuristic 3 3 p = false) := by
  refine ⟨?_, ?_, fun p => ?_⟩
  · intro s t p
    unfold filterHeuristic
    by_cases h0 : s = 0 ∨ t = 0
    · simp [h0]
      tauto
    · push_neg at h0
      by_cases h10 : 10 ≤ s ∨ 10 ≤ t
      · have habs : max ((s : ℚ) / ((s : ℚ) + t)) ((t : ℚ) / ((s : ℚ) + t))
            - min ((s : ℚ) / ((s : ℚ) + t)) ((t : ℚ) / ((s : ℚ) + t))
            = |((s : ℚ) / ((s : ℚ) + t) - (t : ℚ) / ((s : ℚ) + t))| := by
          rw [max_sub_min_eq_abs, abs_sub_comm]
        by_cases hp : p ≤ |((s : ℚ) / ((s : ℚ) + t) - (t : ℚ) / ((s : ℚ) + t))|
        · simp [h0.1, h0.2, h10, habs, hp]
        · simp [h0.1, h0.2, h10, habs, hp]
      · simp [h0.1, h0.2, h10]
  · unfold filterHeuristic
    norm_num
  · unfold filterHeuristic
    norm_num

lemma worker_distance_error (cos : List ℚ → List ℚ → ℚ)
    (s t : List ℚ) (rv : List ℕ) :
    worker_distance cos s t rv
      = Except.error "NameError: name avg_embedding_src_vector is not defined" := by
  rfl

lemma starmapDistance_cons_error (cos : List ℚ → List ℚ → ℚ)
    (srcE trgE : List (List ℚ)) (T : ℕ) (p : ℕ × ℕ) (l : List (ℕ × ℕ)) :
    starmapDistance cos srcE trgE T (p :: l)
      = Except.error "NameError: name avg_embedding_src_vector is not defined" := by
  unfold starmapDistance
  rw [List.mapM_cons, worker_distance_error]
  rfl

/-- **C9** — every invocation of `worker_distance` raises `NameError`
(its body references `avg_embedding_src_vector` /
`avg_embedding_trg_vector`, which are neither parameters nor module
globals), and consequently the multiprocessing branch of `get_distance`
aborts with that `NameError` — it can never return a result list —
whenever the filtered cross product is nonempty. -/
theorem worker_distance_always_nameerror :
    (∀ (cos : List ℚ → List ℚ → ℚ) (s t : List ℚ) (rv : List ℕ),
        worker_distance cos s t rv
          = Except.error "NameError: name avg_embedding_src_vector is not defined") ∧
    (∀ (cos : List ℚ → List ℚ → ℚ) (srcE trgE : List (List ℚ)) (W : ℕ)
        (heur : Bool) (thr : Option ℚ),
        crossPairs srcE.length trgE.length (pairKeep heur srcE trgE) ≠ [] →
        get_distance_mp cos srcE trgE W heur thr
          = Except.error "NameError: name avg_embedding_src_vector is not defined") := by
  refine ⟨worker_distance_error, ?_⟩
  intro cos srcE trgE W heur thr hne
  unfold get_distance_mp
  obtain ⟨p, rest, hp⟩ := List.exists_cons_of_ne_nil hne
  rw [hp]
  simp only [chunkExact]
  rw [List.foldlM_cons, starmapDistance_cons_error]
  rfl

/-- **C9 witness** — a 1×1 unfiltered cross product: the pair list is
nonempty and the multiprocessing scorer returns the `NameError`. -/
theorem worker_distance_always_nameerror_witness :
    crossPairs [[(1 : ℚ)]].length [[(1 : ℚ)]].length
        (pairKeep false [[(1 : ℚ)]] [[(1 : ℚ)]]) ≠ [] ∧
    get_distance_mp (fun _ _ => 0) [[(1 : ℚ)]] [[(1 : ℚ)]] 10 false none
      = Except.error "NameError: name avg_embedding_src_vector is not defined" := by
  have hne : crossPairs [[(1 : ℚ)]].length [[(1 : ℚ)]].length
      (pairKeep false [[(1 : ℚ)]] [[(1 : ℚ)]]) ≠ [] := by
    simp [crossPairs, pairKeep, List.range_succ]
  exact ⟨hne, worker_distance_always_nameerror.2 (fun _ _ => 0) _ _ 10 false none hne⟩

lemma flatMap_sublist {α : Type} {l : List ℕ} {f g : ℕ → List α}
    (h : ∀ x ∈ l, List.Sublist (f x) (g x)) :
    List.Sublist (l.flatMap f) (l.flatMap g) := by
  induction l with
  | nil => simp
  | cons a l ih =>
      rw [List.flatMap_cons, List.flatMap_cons]
      exact List.Sublist.append (h a (List.mem_cons_self _ _))
        (ih fun x hx => h x (List.mem_cons_of_mem _ hx))

lemma crossPairs_flat_eq (S T : ℕ) :
    (crossPairs S T (fun _ _ => true)).map (fun p => p.1 * T + p.2)
      = List.range (S * T) := by
  induction S with
  | zero => simp [crossPairs]
  | succ S ih =>
      unfold crossPairs at ih ⊢
      rw [List.range_succ, List.flatMap_append, List.map_append, ih,
        List.flatMap_cons, List.flatMap_nil, List.append_nil,
        Nat.succ_mul, List.range_add]
      congr 1
      rw [List.filter_true, List.map_map]
      rfl

lemma crossPairs_flat_sublist (S T : ℕ) (keep : ℕ → ℕ → Bool) :
    List.Sublist ((crossPairs S T keep).map (fun p => p.1 * T + p.2))
      (List.range (S * T)) := by
  rw [← crossPairs_flat_eq S T]
  unfold crossPairs
  rw [List.map_flatMap, List.map_flatMap]
  apply flatMap_sublist
  intro si _
  rw [List.map_map, List.map_map]
  exact List.Sublist.map _ (by rw [List.filter_true]; exact List.filter_sublist _)

lemma crossPairs_keys_pairwise (S T : ℕ) (keep : ℕ → ℕ → Bool) :
    (crossPairs S T keep).Pairwise
      (fun p q : ℕ × ℕ => p.1 * T + p.2 < q.1 * T + q.2) := by
  have h1 : ((crossPairs S T keep).map (fun p => p.1 * T + p.2)).Pairwise (· < ·) :=
    (List.sorted_lt_range (S * T)).sublist (crossPairs_flat_sublist S T keep)
  exact List.pairwise_map.mp h1

lemma chunkExact_mem_sublist {α : Type} (W : ℕ) :
    ∀ (n : ℕ) (l : List α), l.length ≤ n →
      ∀ b ∈ chunkExact W l, List.Sublist b l := by
  intro n
  induction n with
  | zero =>
      intro l hl b hb
      rw [List.length_eq_zero.mp (Nat.le_zero.mp hl)] at hb
      simp [chunkExact] at hb
  | succ n ih =>
      intro l hl b hb
      cases l with
      | nil => simp [chunkExact] at hb
      | cons a l =>
          simp only [chunkExact, List.mem_cons] at hb
          rcases hb with hb | hb
          · rw [hb]
            exact List.Sublist.cons₂ a (List.take_sublist _ _)
          · have hlen : (l.drop (W - 1)).length ≤ n := by
              rw [List.length_drop]
              have : l.length ≤ n := by
                have := hl
                simp only [List.length_cons] at this
                omega
              omega
            exact ((ih _ hlen b hb).trans (List.drop_sublist _ _)).trans
              (List.sublist_cons_self a l)

lemma pairwise_lt_of_le_nodup {α : Type} (key : α → ℕ) :
    ∀ {l : List α}, l.Pairwise (fun x y => key x ≤ key y) →
      (l.map key).Nodup → l.Pairwise (fun x y => key x < key y) := by
  intro l
  induction l with
  | nil => intro _ _; exact List.Pairwise.nil
  | cons a l ih =>
      intro hle hnd
      rw [List.pairwise_cons] at hle ⊢
      rw [List.map_cons, List.nodup_cons] at hnd
      refine ⟨fun b hb => lt_of_le_of_ne (hle.1 b hb) ?_, ih hle.2 hnd.2⟩
      intro he
      exact hnd.1 (he ▸ List.mem_map.mpr ⟨b, hb, rfl⟩)

lemma sortByKey_eq_of_perm {α : Type} (key : α → ℕ) {s b : List α}
    (hp : s.Perm b) (hb : b.Pairwise (fun x y => key x < key y)) :
    sortByKey key s = b := by
  haveI : IsTotal α (fun x y => key x ≤ key y) := ⟨fun a c => le_total _ _⟩
  haveI : IsTrans α (fun x y => key x ≤ key y) := ⟨fun a c e h1 h2 => le_trans h1 h2⟩
  haveI : IsAntisymm α (fun x y => key x < key y) :=
    ⟨fun a c h1 h2 => absurd (lt_trans h1 h2) (lt_irrefl _)⟩
  have hperm : (sortByKey key s).Perm b := (List.perm_insertionSort _ s).trans hp
  have hle : (sortByKey key s).Pairwise (fun x y => key x ≤ key y) :=
    List.sorted_insertionSort _ s
  have hndb : (b.map key).Nodup :=
    (List.pairwise_map.mpr hb).imp (fun h => ne_of_lt h)
  have hnds : ((sortByKey key s).map key).Nodup := ((hperm.map key).nodup_iff).mpr hndb
  exact List.eq_of_perm_of_sorted hperm (pairwise_lt_of_le_nodup key hle hnds) hb

lemma collectLev_congr (thr : Option ℚ) {xs ys : List (List LevItem)}
    (h : List.Forall₂
      (fun a b => sortByKey levSortKey a = sortByKey levSortKey b) xs ys) :
    collectLev thr xs = collectLev thr ys := by
  unfold collectLev
  suffices hgen : ∀ acc : List (ℕ × ℕ × ℚ),
      xs.foldl (fun acc b => acc ++ processLevResults thr (sortByKey levSortKey b)) acc
        = ys.foldl (fun acc b => acc ++ processLevResults thr (sortByKey levSortKey b)) acc by
    exact hgen []
  induction h with
  | nil => intro acc; rfl
  | cons hab _ ih =>
      intro acc
      rw [List.foldl_cons, List.foldl_cons, hab]
      exact ih _

/-- **C2** — determinism of the multiprocessing `get_lev` scorer: each
dispatched batch carries strictly increasing flattened pair indices
`src_idx * len(trg_docs) + trg_idx`, so re-sorting a batch's collected
results by that key restores the original pair order no matter in which
order the workers completed; hence, for any per-batch completion order
(any permutation of each batch), the final cumulative result list is
identical to the canonical argument-order run. -/
theorem get_lev_mp_deterministic :
    ∀ (score : ℕ → ℕ → Option ℚ) (S T W : ℕ) (keep : ℕ → ℕ → Bool)
      (thr : Option ℚ) (shuffles : List (List LevItem)),
      List.Forall₂ (fun a b => a.Perm b) shuffles (levBatches score S T W keep) →
      collectLev thr shuffles = get_lev_mp score S T W keep thr := by
  intro score S T W keep thr shuffles hperm
  unfold get_lev_mp
  apply collectLev_congr
  have hsorted : ∀ b ∈ levBatches score S T W keep,
      b.Pairwise (fun x y => levSortKey x < levSortKey y) := by
    intro b hb
    have hitems : (levItems score T (crossPairs S T keep)).Pairwise
        (fun x y => levSortKey x < levSortKey y) := by
      unfold levItems
      rw [List.pairwise_map]
      exact crossPairs_keys_pairwise S T keep
    exact hitems.sublist
      (chunkExact_mem_sublist W (levItems score T (crossPairs S T keep)).length _
        le_rfl b hb)
  have hgen : ∀ {xs ys : List (List LevItem)},
      List.Forall₂ (fun a b => a.Perm b) xs ys →
      (∀ b ∈ ys, b.Pairwise (fun x y => levSortKey x < levSortKey y)) →
      List.Forall₂
        (fun a b => sortByKey levSortKey a = sortByKey levSortKey b) xs ys := by
    intro xs ys h
    induction h with
    | nil => intro _; exact List.Forall₂.nil
    | cons hab _ ih =>
        intro hs
        refine List.Forall₂.cons ?_ (ih fun b hb => hs b (List.mem_cons_of_mem _ hb))
        rw [sortByKey_eq_of_perm levSortKey hab (hs _ (List.mem_cons_self _ _)),
          sortByKey_eq_of_perm levSortKey (List.Perm.refl _)
            (hs _ (List.mem_cons_self _ _))]
  exact hgen hperm hsorted

/-- **C2 witness** — a single batch of two pairs collected in reversed
completion order still folds into the canonical result. -/
theorem get_lev_mp_deterministic_witness :
    collectLev none [[(none, 0, 1, 1), (none, 0, 0, 0)]]
      = get_lev_mp (fun _ _ => none) 1 2 2 (fun _ _ => true) none := by
  apply get_lev_mp_deterministic
  have hb : levBatches (fun _ _ => none) 1 2 2 (fun _ _ => true)
      = [[(none, 0, 0, 0), (none, 0, 1, 1)]] := by
    simp [levBatches, levItems, crossPairs, chunkExact, List.range_succ]
  rw [hb]
  exact List.Forall₂.cons (List.Perm.swap _ _ _) List.Forall₂.nil

lemma clip01_mem (x : ℚ) : 0 ≤ clip01 x ∧ clip01 x ≤ 1 := by
  unfold clip01
  constructor
  · exact le_max_right _ _
  · exact max_le (min_le_right _ _) (by norm_num)

lemma faissWalk_spec (thr : Option ℚ) :
    ∀ (l : List FTriple) (aS aT : Finset ℕ),
      ((faissWalk thr aS aT l).map (fun r => r.1)).Nodup ∧
      ((faissWalk thr aS aT l).map (fun r => r.2.1)).Nodup ∧
      (∀ r ∈ faissWalk thr aS aT l, r.1 ∉ aS ∧ r.2.1 ∉ aT) ∧
      (∀ r ∈ faissWalk thr aS aT l, r ∈ l ∧ belowThreshold thr r.2.2 = false) := by
  intro l
  induction l with
  | nil => intro aS aT; simp [faissWalk]
  | cons r rest ih =>
      intro aS aT
      unfold faissWalk
      by_cases h1 : r.2.1 ∈ aT ∨ r.1 ∈ aS
      · rw [if_pos h1]
        obtain ⟨n1, n2, hout, hmem⟩ := ih aS aT
        exact ⟨n1, n2, hout, fun x hx =>
          ⟨List.mem_cons_of_mem _ (hmem x hx).1, (hmem x hx).2⟩⟩
      · rw [if_neg h1]
        by_cases h2 : belowThreshold thr r.2.2
        · rw [if_pos h2]
          obtain ⟨n1, n2, hout, hmem⟩ := ih aS aT
          exact ⟨n1, n2, hout, fun x hx =>
            ⟨List.mem_cons_of_mem _ (hmem x hx).1, (hmem x hx).2⟩⟩
        · rw [if_neg h2]
          obtain ⟨n1, n2, hout, hmem⟩ := ih (insert r.1 aS) (insert r.2.1 aT)
          push_neg at h1
          refine ⟨?_, ?_, ?_, ?_⟩
          · rw [List.map_cons, List.nodup_cons]
            exact ⟨fun hc => by
              obtain ⟨x, hx, hx1⟩ := List.mem_map.mp hc
              exact (hout x hx).1 (hx1 ▸ Finset.mem_insert_self _ _), n1⟩
          · rw [List.map_cons, List.nodup_cons]
            exact ⟨fun hc => by
              obtain ⟨x, hx, hx1⟩ := List.mem_map.mp hc
              exact (hout x hx).2 (hx1 ▸ Finset.mem_insert_self _ _), n2⟩
          · intro x hx
            rcases List.mem_cons.mp hx with hx | hx
            · subst hx; exact ⟨h1.2, h1.1⟩
            · exact ⟨fun hc => (hout x hx).1 (Finset.mem_insert_of_mem hc),
                fun hc => (hout x hx).2 (Finset.mem_insert_of_mem hc)⟩
          · intro x hx
            rcases List.mem_cons.mp hx with hx | hx
            · subst hx
              exact ⟨List.mem_cons_self _ _, Bool.eq_false_iff.mpr h2⟩
            · exact ⟨List.mem_cons_of_mem _ (hmem x hx).1, (hmem x hx).2⟩

/-- **C3** — `get_faiss` output invariant: for every pool of raw
`(source, target, score)` triples and every optional threshold, the
emitted list never repeats a source index or a target index (a 1:1
assignment), every emitted score lies in `[0, 1]` (the pool scores are
clipped before selection), and when a threshold is given every emitted
score is at least the threshold. -/
theorem get_faiss_select_invariants :
    ∀ (raw : List FTriple) (thr : Option ℚ),
      ((get_faiss_select raw thr).map (fun r => r.1)).Nodup ∧
      ((get_faiss_select raw thr).map (fun r => r.2.1)).Nodup ∧
      (∀ r ∈ get_faiss_select raw thr, 0 ≤ r.2.2 ∧ r.2.2 ≤ 1) ∧
      (∀ t : ℚ, thr = some t → ∀ r ∈ get_faiss_select raw thr, t ≤ r.2.2) := by
  intro raw thr
  obtain ⟨n1, n2, _, hmem⟩ :=
    faissWalk_spec thr (faissSortDesc (faissPool raw)) ∅ ∅
  refine ⟨n1, n2, ?_, ?_⟩
  · intro r hr
    have hin : r ∈ faissSortDesc (faissPool raw) := (hmem r hr).1
    have hpool : r ∈ faissPool raw :=
      (List.perm_insertionSort _ (faissPool raw)).subset hin
    obtain ⟨x, _, hx⟩ := List.mem_map.mp hpool
    rw [← hx]
    exact clip01_mem x.2.2
  · intro t ht r hr
    have hb := (hmem r hr).2
    rw [ht] at hb
    unfold belowThreshold at hb
    simpa using le_of_not_lt (by simpa using hb)

/-- **C3 witness** — the invariants instantiated on a concrete pool with
threshold `1/4`. -/
theorem get_faiss_select_invariants_witness :
    ((get_faiss_select [(0, 0, 1/2), (1, 0, 3/4), (0, 1, 2)] (some (1/4))).map
        (fun r => r.1)).Nodup ∧
    (∀ r ∈ get_faiss_select [(0, 0, 1/2), (1, 0, 3/4), (0, 1, 2)] (some (1/4)),
        (1/4 : ℚ) ≤ r.2.2) := by
  have h := get_faiss_select_invariants [(0, 0, 1/2), (1, 0, 3/4), (0, 1, 2)]
    (some (1/4))
  exact ⟨h.1, h.2.2.2 (1/4) rfl⟩

lemma bmSet_keys (m : BestMap) (k v : ℕ) (sc : ℚ) :
    (bmSet m k v sc).map (fun e => e.1) = m.map (fun e => e.1) := by
  unfold bmSet
  rw [List.map_map]
  apply List.map_congr_left
  intro e _
  by_cases h : e.1 = k <;> simp [h]

lemma bmLookup_eq_none_iff (m : BestMap) (k : ℕ) :
    bmLookup m k = none ↔ ∀ e ∈ m, e.1 ≠ k := by
  unfold bmLookup
  simp [List.find?_eq_none]

lemma bmUpdate_keys_nodup {m : BestMap} (k v : ℕ) (sc : ℚ)
    (h : (m.map (fun e => e.1)).Nodup) :
    ((bmUpdate m k v sc).map (fun e => e.1)).Nodup := by
  unfold bmUpdate
  cases hl : bmLookup m k with
  | none =>
      rw [List.map_append]
      refine List.Nodup.append h (by simp) ?_
      intro x hx hx'
      obtain ⟨e, he, he1⟩ := List.mem_map.mp hx
      simp only [List.map_cons, List.map_nil, List.mem_cons, List.not_mem_nil,
        or_false] at hx'
      exact (bmLookup_eq_none_iff m k).mp hl e he (he1.trans hx')
  | some p =>
      obtain ⟨pv, po⟩ := p
      simp only
      by_cases hlt : po < sc
      · rw [if_pos hlt, bmSet_keys]; exact h
      · rw [if_neg hlt]; exact h

lemma docalignFold_keys_nodup (rs : List Cand) :
    (((docalignFold rs).1.map (fun e => e.1)).Nodup) ∧
    (((docalignFold rs).2.map (fun e => e.1)).Nodup) := by
  unfold docalignFold
  suffices h : ∀ mm : BestMap × BestMap,
      (mm.1.map (fun e => e.1)).Nodup → (mm.2.map (fun e => e.1)).Nodup →
      ((rs.foldl (fun (mm : BestMap × BestMap) r =>
          (bmUpdate mm.1 r.1 r.2.1 r.2.2, bmUpdate mm.2 r.2.1 r.1 r.2.2)) mm).1.map
        (fun e => e.1)).Nodup ∧
      ((rs.foldl (fun (mm : BestMap × BestMap) r =>
          (bmUpdate mm.1 r.1 r.2.1 r.2.2, bmUpdate mm.2 r.2.1 r.1 r.2.2)) mm).2.map
        (fun e => e.1)).Nodup by
    exact h ([], []) (by simp) (by simp)
  induction rs with
  | nil => intro mm h1 h2; exact ⟨h1, h2⟩
  | cons r rest ih =>
      intro mm h1 h2
      exact ih _ (bmUpdate_keys_nodup _ _ _ h1) (bmUpdate_keys_nodup _ _ _ h2)

lemma mem_of_bmLookup {m : BestMap} {s t : ℕ} {q : ℚ}
    (h : bmLookup m s = some (t, q)) : (s, t, q) ∈ m := by
  unfold bmLookup at h
  cases hf : m.find? (fun e => e.1 == s) with
  | none => rw [hf] at h; exact absurd h (by simp)
  | some e =>
      rw [hf] at h
      have he : e ∈ m := List.mem_of_find?_eq_some hf
      have hk : e.1 = s := by simpa using List.find?_some hf
      have hv : e.2 = (t, q) := by
        simpa using Option.some.inj h
      have : e = (s, t, q) := by
        obtain ⟨e1, e2, e3⟩ := e
        simp_all
      exact this ▸ he

lemma bmLookup_of_mem {m : BestMap} {s t : ℕ} {q : ℚ}
    (hn : (m.map (fun e => e.1)).Nodup) (hm : (s, t, q) ∈ m) :
    bmLookup m s = some (t, q) := by
  induction m with
  | nil => exact absurd hm (List.not_mem_nil _)
  | cons e rest ih =>
      rw [List.map_cons, List.nodup_cons] at hn
      rcases List.mem_cons.mp hm with he | hm'
      · subst he
        unfold bmLookup
        rw [List.find?_cons_of_pos _ (by simp)]
        rfl
      · have hne : e.1 ≠ s := by
          intro hc
          exact hn.1 (hc ▸ List.mem_map.mpr ⟨(s, t, q), hm', rfl⟩)
        unfold bmLookup
        rw [List.find?_cons_of_neg _ (by simpa using hne)]
        exact ih hn.2 hm'

/-- **C7** — `union_and_intersection` after the `docalign` fold: the
intersection is always a subset of the union; a pair `(s, t)` is in the
intersection exactly when `t` is the best target recorded for `s` and
`s` is the best source recorded for `t` (mutual best, with the folding
replacing a stored best only on a strictly greater score and keeping the
first candidate on ties); and on the empty candidate pool both sets are
empty. -/
theorem union_and_intersection_mutual_best :
    ∀ (rs : List Cand) (s t : ℕ),
      (union_and_intersection (docalignFold rs)).2 ⊆
        (union_and_intersection (docalignFold rs)).1 ∧
      ((s, t) ∈ (union_and_intersection (docalignFold rs)).2 ↔
        (∃ q, bmLookup (docalignFold rs).1 s = some (t, q)) ∧
        (∃ q, bmLookup (docalignFold rs).2 t = some (s, q))) ∧
      union_and_intersection (docalignFold []) = (∅, ∅) := by
  intro rs s t
  obtain ⟨hn1, hn2⟩ := docalignFold_keys_nodup rs
  refine ⟨?_, ?_, ?_⟩
  · -- intersection ⊆ union
    intro p hp
    unfold union_and_intersection uiInter at hp
    unfold union_and_intersection uiUnion
    rw [List.mem_toFinset] at hp
    obtain ⟨e, he, hep⟩ := List.mem_map.mp hp
    have he' : e ∈ (docalignFold rs).1 := List.mem_of_mem_filter he
    exact Finset.mem_union_left _
      (List.mem_toFinset.mpr (List.mem_map.mpr ⟨e, he', hep⟩))
  · -- mutual-best characterisation
    unfold union_and_intersection uiInter
    rw [List.mem_toFinset]
    constructor
    · intro hp
      obtain ⟨e, he, hep⟩ := List.mem_map.mp hp
      rw [List.mem_filter] at he
      obtain ⟨e1, e2, e3⟩ := e
      obtain ⟨hes, het⟩ := Prod.mk.injEq .. ▸ hep
      simp only at hes het
      subst hes het
      refine ⟨⟨e3, bmLookup_of_mem hn1 he.1⟩, ?_⟩
      have := he.2
      simp only [beq_iff_eq] at this
      obtain ⟨⟨bs, bq⟩, hb, hbs⟩ := Option.map_eq_some'.mp this
      simp only at hbs
      exact ⟨bq, hbs ▸ hb⟩
    · rintro ⟨⟨q1, hq1⟩, ⟨q2, hq2⟩⟩
      have hm1 : (s, t, q1) ∈ (docalignFold rs).1 := mem_of_bmLookup hq1
      refine List.mem_map.mpr ⟨(s, t, q1), List.mem_filter.mpr ⟨hm1, ?_⟩, rfl⟩
      simp only [beq_iff_eq]
      rw [hq2]
      rfl
  · -- empty pool
    rfl

lemma dotp_self_nonneg (n : ℕ) (v : Fin n → ℝ) : 0 ≤ dotp n v v :=
  Finset.sum_nonneg fun i _ => mul_self_nonneg (v i)

lemma vnorm_mul_self (n : ℕ) (v : Fin n → ℝ) : vnorm n v * vnorm n v = dotp n v v :=
  Real.mul_self_sqrt (dotp_self_nonneg n v)

lemma dotp_le_norms (n : ℕ) (a b : Fin n → ℝ) : dotp n a b ≤ vnorm n a * vnorm n b := by
  have h := Real.sum_mul_le_sqrt_mul_sqrt (Finset.univ : Finset (Fin n)) a b
  simp only [dotp, vnorm]
  have ha : (∑ i, a i * a i) = ∑ i, a i ^ 2 := by simp [sq]
  have hb : (∑ i, b i * b i) = ∑ i, b i ^ 2 := by simp [sq]
  rw [ha, hb]
  exact h

/-- **C5 counterexample** — the claim "for every vector `v`,
`score(v, v) = 0`" fails at the zero vector: there the cosine of the
angle is an undefined `0/0` (scipy produces NaN, not `0`). -/
theorem cosine_similarity_selfzero_counterexample :
    cosine_similarity 1 (fun _ => (0 : ℝ)) (fun _ => (0 : ℝ)) true ≠ some 0 := by
  unfold cosine_similarity scipyCosine vnorm dotp
  simp

/-- **C5 (amended)** — for every *nonzero* vector `v`,
`score(v, v) = 0`; every pair of antiparallel nonzero vectors scores `1`
(clipped); the score is symmetric in its two arguments; and every
defined result lies in `[0, 1]`, the clip to `1` firing exactly when the
true cosine similarity is negative. -/
theorem cosine_similarity_metric_properties :
    (∀ n : ℕ, ∀ v : Fin n → ℝ, dotp n v v ≠ 0 →
        cosine_similarity n v v true = some 0) ∧
    (∀ n : ℕ, ∀ v : Fin n → ℝ, ∀ c : ℝ, 0 < c → dotp n v v ≠ 0 →
        cosine_similarity n v (fun i => -(c * v i)) true = some 1) ∧
    (∀ n : ℕ, ∀ a b : Fin n → ℝ,
        cosine_similarity n a b true = cosine_similarity n b a true) ∧
    (∀ n : ℕ, ∀ a b : Fin n → ℝ, ∀ d : ℝ,
        cosine_similarity n a b true = some d → 0 ≤ d ∧ d ≤ 1) := by
  refine ⟨?_, ?_, ?_, ?_⟩
  · -- self-score of a nonzero vector
    intro n v h
    have hpos : 0 < dotp n v v := lt_of_le_of_ne (dotp_self_nonneg n v) (Ne.symm h)
    have hV : vnorm n v * vnorm n v = dotp n v v := vnorm_mul_self n v
    have hNz : vnorm n v * vnorm n v ≠ 0 := by rw [hV]; exact ne_of_gt hpos
    unfold cosine_similarity scipyCosine
    rw [if_neg hNz, hV, div_self h]
    norm_num
  · -- antiparallel vectors
    intro n v c hc h
    have hpos : 0 < dotp n v v := lt_of_le_of_ne (dotp_self_nonneg n v) (Ne.symm h)
    have hdot : dotp n v (fun i => -(c * v i)) = -(c * dotp n v v) := by
      unfold dotp
      calc (∑ i, v i * (fun i => -(c * v i)) i)
          = ∑ i, -(c * (v i * v i)) :=
            Finset.sum_congr rfl fun i _ => by
              show v i * -(c * v i) = -(c * (v i * v i))
              ring
        _ = -(∑ i, c * (v i * v i)) := by rw [Finset.sum_neg_distrib]
        _ = -(c * ∑ i, v i * v i) := by rw [Finset.mul_sum]
    have hbb : dotp n (fun i => -(c * v i)) (fun i => -(c * v i))
        = c * c * dotp n v v := by
      unfold dotp
      calc (∑ i, (fun i => -(c * v i)) i * (fun i => -(c * v i)) i)
          = ∑ i, c * c * (v i * v i) :=
            Finset.sum_congr rfl fun i _ => by
              show -(c * v i) * -(c * v i) = c * c * (v i * v i)
              ring
        _ = c * c * ∑ i, v i * v i := by rw [Finset.mul_sum]
    have hnb : vnorm n (fun i => -(c * v i)) = c * vnorm n v := by
      unfold vnorm
      rw [hbb, Real.sqrt_mul (mul_self_nonneg c), Real.sqrt_mul_self hc.le]
    have hprod : vnorm n v * vnorm n (fun i => -(c * v i)) = c * dotp n v v := by
      rw [hnb, mul_comm (vnorm n v), mul_assoc, vnorm_mul_self]
    have hNz : vnorm n v * vnorm n (fun i => -(c * v i)) ≠ 0 := by
      rw [hprod]; exact ne_of_gt (mul_pos hc hpos)
    unfold cosine_similarity scipyCosine
    rw [if_neg hNz, hdot, hprod, neg_div, div_self (ne_of_gt (mul_pos hc hpos))]
    norm_num
  · -- symmetry
    intro n a b
    have hdot : dotp n a b = dotp n b a :=
      Finset.sum_congr rfl fun i _ => mul_comm (a i) (b i)
    unfold cosine_similarity scipyCosine
    rw [hdot, mul_comm (vnorm n a) (vnorm n b)]
  · -- definedness implies membership in the unit interval
    intro n a b d h
    unfold cosine_similarity scipyCosine at h
    by_cases h0 : vnorm n a * vnorm n b = 0
    · rw [if_pos h0] at h
      exact absurd h (by simp)
    · rw [if_neg h0, Option.map_some'] at h
      have hNpos : 0 < vnorm n a * vnorm n b :=
        lt_of_le_of_ne (mul_nonneg (Real.sqrt_nonneg _) (Real.sqrt_nonneg _))
          (Ne.symm h0)
      set t : ℝ := dotp n a b / (vnorm n a * vnorm n b) with ht
      have ht1 : t ≤ 1 := (div_le_one hNpos).2 (dotp_le_norms n a b)
      simp only [true_and] at h
      by_cases hclip : 1 - (1 - t) < 0
      · rw [if_pos hclip] at h
        have hd := Option.some.inj h
        rw [← hd]
        norm_num
      · rw [if_neg hclip] at h
        have hd := Option.some.inj h
        have htnn : 0 ≤ t := by linarith [not_lt.mp hclip]
        rw [← hd]
        constructor <;> linarith

/-- **C5 witness** — the amended theorem applied at concrete inputs: the
one-dimensional vector `(1)` scores `0` against itself and `1` against
its negation. -/
theorem cosine_similarity_metric_properties_witness :
    cosine_similarity 1 (fun _ => (1 : ℝ)) (fun _ => (1 : ℝ)) true = some 0 ∧
    cosine_similarity 1 (fun _ => (1 : ℝ))
      (fun i => -((1 : ℝ) * (fun _ : Fin 1 => (1 : ℝ)) i)) true = some 1 := by
  have h := cosine_similarity_metric_properties
  exact ⟨h.1 1 (fun _ => 1) (by simp [dotp]),
         h.2.1 1 (fun _ => 1) 1 one_pos (by simp [dotp])⟩

lemma mulWeightLists_eq_zipWith {A B : List (List ℚ)}
    (h : List.Forall₂ (fun a b : List ℚ => a.length = b.length) A B) :
    mulWeightLists A B = some (List.zipWith (fun a b => List.zipWith (· * ·) a b) A B) := by
  induction h with
  | nil => rfl
  | cons ha _ ih =>
      simp only [mulWeightLists, npMul1d, ha, if_true, List.zipWith_cons_cons,
        Option.bind_eq_bind, Option.some_bind, ih]
      rfl

/-- **C4** — combined (sentence-length × idf) weighting: for every
document collection (and every normalisation and logarithm function) the
combined-weighting call returns successfully — it never aborts — and the
weight vector of each document is the elementwise product of that
document's sentence-length weight vector and its idf weight vector.  The
length-mismatch branch of the code only logs a warning; the two weight
vectors of a document in fact always have equal lengths, so the
multiplication that follows the warning cannot raise. -/
theorem get_weights_slidf_all_elementwise_product :
    ∀ (pylog : ℚ → ℚ) (pnorm : String → String) (docs : List (List String)),
      get_weights_slidf_all pylog pnorm docs
        = some (List.zipWith (fun a b => List.zipWith (· * ·) a b)
            (docs.map (get_weights_sl pnorm)) (get_weights_idf_all pylog pnorm docs)) := by
  intro pylog pnorm docs
  apply mulWeightLists_eq_zipWith
  unfold get_weights_idf_all
  rw [List.forall₂_map_right_iff, List.forall₂_map_left_iff, List.forall₂_same]
  intro d _
  simp [get_weights_sl]

/-- **C8** — `apply_mask` with zero-pruning: on a 1-dimensional (merged)
embedding the elementwise multiplication is discarded — the result is the
original vector with the near-zero mask dimensions deleted — while on a
2-dimensional sentence matrix the result reflects both the
multiplication and the column deletion; at the concrete input
`[5, 7]` with mask `[2, 0]` the returned vector differs from what
deleting from the *masked* vector would give. -/
theorem apply_mask_zero_pruning_discards_1d_multiplication :
    (∀ v mask : List ℚ,
        apply_mask [Emb.v1 v] mask true = [Emb.v1 (npDeleteVec v mask)]) ∧
    (∀ rows : List (List ℚ), ∀ mask : List ℚ,
        apply_mask [Emb.v2 rows] mask true
          = [Emb.v2 (npDeleteCols (rows.map (fun r => zipMul r mask)) mask)]) ∧
    apply_mask [Emb.v1 [5, 7]] [2, 0] true
      ≠ [Emb.v1 (npDeleteVec (zipMul [5, 7] [2, 0]) [2, 0])] := by
  refine ⟨fun v mask => rfl, fun rows mask => rfl, ?_⟩
  simp only [apply_mask, applyMaskStep, npDeleteVec, zipMul, floatEps, List.map_cons,
    List.map_nil, List.zip_cons_cons, List.zip_nil_right, List.zipWith_cons_cons,
    List.zipWith_nil_right, List.filter_cons, List.filter_nil, ne_eq, List.cons.injEq]
  norm_num

end NDA
